import Mathlib

/-!
Shallow embedding of the page-rendering core of `rmrl` (`src/rmrl/document.py`)
and verification of its natural-language specification.

Conventions of the embedding:
* Python floats are modelled as rationals (`ℚ`); the constants of the source
  (`0.7`, `1404 / 2.0 - 40`, ...) are exact in this model.
* Python exceptions are modelled with `Except PyError`; the possible dynamic
  errors of the modelled code paths are constructors of `PyError`.
* The decoded block stream of `rmscene.read_blocks` is modelled as a
  `List Block`; external modules (`rmscene`, `.lines`, `.pens`, the source
  accessor) are modelled at their interface, as the spec prescribes.
-/

namespace Rmrl

/-- Raw device-space sample point, as decoded by the external block reader
(`rmscene.scene_items.Point`). -/
structure Point where
  x : ℚ
  y : ℚ
  speed : ℚ
  direction : ℚ
  width : ℚ
  pressure : ℚ
  deriving DecidableEq, Repr

/-- Page-space sample point, result of `to_segment` (`.lines.Segment`). -/
structure Segment where
  x : ℚ
  y : ℚ
  speed : ℚ
  direction : ℚ
  width : ℚ
  pressure : ℚ
  deriving DecidableEq, Repr

/-- The stroke tuple `Stroke(tool, color, None, thickness_scale, None, segments)`
built by `DocumentPage.get_layers` and unpacked positionally by
`DocumentPageLayer.paint_strokes` as `pen, color, unk1, width, unk2, segments`. -/
structure Stroke where
  pen : Nat
  color : Nat
  unk1 : Option Unit
  width : ℚ
  unk2 : Option Unit
  segments : List Segment
  deriving DecidableEq, Repr

/-- A named layer, `Layer(strokes, name)` as built by `DocumentPage.get_layers`. -/
structure Layer where
  strokes : List Stroke
  name : String
  deriving DecidableEq, Repr

/-- Payload of a `SceneLineItemBlock` when `block.item.value` is not `None`:
the fields read by `get_layers`. -/
structure LineValue where
  color : Nat
  tool : Nat
  points : List Point
  thickness_scale : ℚ
  deriving DecidableEq, Repr

/-- One decoded block of the version-6 stream: a `SceneLineItemBlock` carrying
an optional stroke payload, a `TreeNodeBlock` carrying a group label
(`block.group.label.value`), or any other (unconverted) block kind. -/
inductive Block where
  | sceneLineItem (value : Option LineValue)
  | treeNode (label : String)
  | otherBlock (kind : String)
  deriving DecidableEq, Repr

/-- The device-to-page coordinate transform `to_segment` of
`DocumentPage.get_layers`: `x * 0.7 + 1404 / 2.0 - 40`, `y * 0.7`,
width divided by `4.0`, the remaining fields carried through. -/
def to_segment (point : Point) : Segment :=
  { x := point.x * (7 / 10) + 1404 / 2 - 40
    y := point.y * (7 / 10)
    speed := point.speed
    direction := point.direction
    width := point.width / 4
    pressure := point.pressure }

/-- The mutable scan state of `DocumentPage.get_layers`: the sealed `layers`
list, the `current_layer` label and the `current_strokes` accumulator. -/
structure V6State where
  layers : List Layer
  current_layer : String
  current_strokes : List Stroke
  deriving DecidableEq, Repr

/-- One iteration of the `for block in blocks` loop of
`DocumentPage.get_layers`. -/
def get_layers_step (s : V6State) (b : Block) : V6State :=
  match b with
  | .sceneLineItem none => s
  | .sceneLineItem (some v) =>
      { s with current_strokes :=
          s.current_strokes ++
            [{ pen := v.tool, color := v.color, unk1 := none,
               width := v.thickness_scale, unk2 := none,
               segments := v.points.map to_segment }] }
  | .treeNode label =>
      if s.current_layer = label then s
      else
        { layers := s.layers ++ [{ strokes := s.current_strokes, name := s.current_layer }]
          current_layer := label
          current_strokes := [] }
  | .otherBlock _ => s

/-- The version-6 adapter `DocumentPage.get_layers`: scan the block stream with
`get_layers_step` starting from the empty label, seal the final accumulator,
and drop the first sealed layer (`return layers[1:]`). -/
def get_layers (blocks : List Block) : List Layer :=
  let s := blocks.foldl get_layers_step { layers := [], current_layer := "", current_strokes := [] }
  ((s.layers ++ [({ strokes := s.current_strokes, name := s.current_layer } : Layer)]).drop 1)

/-- Spec-side measure for C1: the number of group-label transitions of a block
stream, i.e. the number of tree-node blocks whose label differs from the
running current label (initially the empty label). -/
def countTransitions_step (p : Nat × String) (b : Block) : Nat × String :=
  match b with
  | .treeNode label => if p.2 = label then p else (p.1 + 1, label)
  | _ => p

/-- Spec-side measure for C1, folded over the whole stream. -/
def countTransitions (blocks : List Block) : Nat :=
  (blocks.foldl countTransitions_step (0, "")).1

theorem get_layers_invariant (blocks : List Block) :
    ∀ (s : V6State) (acc : Nat × String), acc.2 = s.current_layer →
      (blocks.foldl get_layers_step s).layers.length + acc.1 =
        (blocks.foldl countTransitions_step acc).1 + s.layers.length ∧
      (blocks.foldl get_layers_step s).current_layer =
        (blocks.foldl countTransitions_step acc).2 := by
  induction blocks with
  | nil =>
      intro s acc h
      simp [h, Nat.add_comm]
  | cons b rest ih =>
      intro s acc h
      match b with
      | .sceneLineItem none =>
          simpa [get_layers_step, countTransitions_step] using ih s acc h
      | .sceneLineItem (some v) =>
          have := ih { s with current_strokes :=
            s.current_strokes ++
              [{ pen := v.tool, color := v.color, unk1 := none,
                 width := v.thickness_scale, unk2 := none,
                 segments := v.points.map to_segment }] } acc h
          simpa [get_layers_step, countTransitions_step] using this
      | .treeNode label =>
          by_cases hl : s.current_layer = label
          · have hacc : acc.2 = label := h.trans hl
            have := ih s acc h
            simp [get_layers_step, countTransitions_step, hl, hacc]
            simpa [get_layers_step, countTransitions_step] using this
          · have hacc : ¬ acc.2 = label := by rw [h]; exact hl
            have step := ih
              { layers := s.layers ++ [{ strokes := s.current_strokes, name := s.current_layer }]
                current_layer := label
                current_strokes := [] } (acc.1 + 1, label) rfl
            have h1 := step.1
            have h2 := step.2
            simp only [List.length_append, List.length_cons, List.length_nil] at h1
            simp only [List.foldl_cons, get_layers_step, countTransitions_step,
              if_neg hl, if_neg hacc]
            exact ⟨by omega, h2⟩
      | .otherBlock k =>
          simpa [get_layers_step, countTransitions_step] using ih s acc h

/-- C1: for every version-6 block stream, `DocumentPage.get_layers` produces
exactly as many layers as there are group-label transitions in the stream: each
tree-node block whose label differs from the running current label seals the
accumulated strokes into a layer named with the previous label, the final
accumulator is sealed at end of stream, and the first sealed (synthetic
pre-)layer is discarded by `layers[1:]`. -/
theorem get_layers_length_eq_transitions (blocks : List Block) :
    (get_layers blocks).length = countTransitions blocks := by
  have h := (get_layers_invariant blocks
    { layers := [], current_layer := "", current_strokes := [] } (0, "") rfl).1
  simp only [List.length_nil, Nat.add_zero] at h
  simp only [get_layers, countTransitions, List.length_drop, List.length_append,
    List.length_cons, List.length_nil]
  omega

/-- C2: the device-to-page transform `to_segment` maps a device point to
page coordinates `x = 0.7 * x_dev + 1404/2 - 40`, `y = 0.7 * y_dev`,
`width = width_dev / 4`, carrying pressure, speed and direction through
unchanged; in particular `(x=0, y=0, width=4)` maps to
`(x = 1404/2 - 40, y = 0, width = 1)` and a device point with `x = 1404`
maps to page `x = 0.7 * 1404 + 1404/2 - 40`. -/
theorem to_segment_spec :
    (∀ p : Point, to_segment p =
      { x := 7 / 10 * p.x + 1404 / 2 - 40
        y := 7 / 10 * p.y
        speed := p.speed
        direction := p.direction
        width := p.width / 4
        pressure := p.pressure }) ∧
    to_segment { x := 0, y := 0, speed := 0, direction := 0, width := 4, pressure := 0 } =
      { x := 1404 / 2 - 40, y := 0, speed := 0, direction := 0, width := 1, pressure := 0 } ∧
    (to_segment { x := 1404, y := 0, speed := 0, direction := 0, width := 4, pressure := 0 }).x =
      7 / 10 * 1404 + 1404 / 2 - 40 := by
  refine ⟨fun p => ?_, by norm_num [to_segment, Segment.mk.injEq], by norm_num [to_segment]⟩
  simp [to_segment, Segment.mk.injEq, mul_comm]

/-! Annotation clustering (`DocumentPageLayer.get_grouped_annotations`).
A path geometry (Qt `QPainterPath` region in the source) is modelled as a
finite union of axis-aligned rectangles; `intersects` tests region overlap and
`united` forms the region union, as the drawing library does. -/

/-- Axis-aligned rectangle `(x0, y0)`–`(x1, y1)` in page coordinates. -/
structure Rect where
  x0 : ℚ
  y0 : ℚ
  x1 : ℚ
  y1 : ℚ
  deriving DecidableEq, Repr

/-- Overlap of two axis-aligned rectangles (shared interior). -/
def rectOverlap (a b : Rect) : Bool :=
  decide (a.x0 < b.x1) && decide (b.x0 < a.x1) && decide (a.y0 < b.y1) && decide (b.y0 < a.y1)

/-- Region intersection test, model of `path.intersects(group)`. -/
def intersectsB (p g : List Rect) : Bool :=
  p.any fun r => g.any fun s => rectOverlap r s

/-- Region union, model of `group.united(path)`. -/
def unitedB (g p : List Rect) : List Rect := g ++ p

/-- One entry of `DocumentPageLayer.annot_paths`: the tuple
`(annotype, path)`. -/
structure AnnotShape where
  kind : String
  geom : List Rect
  deriving DecidableEq, Repr

/-- The inner `for i, g in enumerate(newset)` loop of `grouping_func` for one
path `p`: merge `p` into the first already-placed group of the same kind whose
geometry it intersects, otherwise append `p` as a new group. -/
def place_shape : List AnnotShape → AnnotShape → List AnnotShape
  | [], p => [p]
  | g :: gs, p =>
      if g.kind = p.kind ∧ intersectsB p.geom g.geom = true then
        { kind := g.kind, geom := unitedB g.geom p.geom } :: gs
      else
        g :: place_shape gs p

/-- One full pass of `grouping_func` over `pathset`, building `newset`. -/
def grouping_pass (pathset : List AnnotShape) : List AnnotShape :=
  pathset.foldl place_shape []

/-- The recursive `grouping_func` of
`DocumentPageLayer.get_grouped_annotations`: run a pass; if the pass shrank the
set, recurse on the result, else return it. -/
def grouping_func (pathset : List AnnotShape) : List AnnotShape :=
  if _h : (grouping_pass pathset).length ≠ pathset.length then
    grouping_func (grouping_pass pathset)
  else
    grouping_pass pathset
termination_by pathset.length
decreasing_by
  have hbound : ∀ (l acc : List AnnotShape),
      (l.foldl place_shape acc).length ≤ acc.length + l.length := by
    intro l
    induction l with
    | nil => intro acc; simp
    | cons p rest ih =>
        intro acc
        have h1 := ih (place_shape acc p)
        have h2 : (place_shape acc p).length ≤ acc.length + 1 := by
          clear h1
          induction acc with
          | nil => simp [place_shape]
          | cons g gs ihg =>
              by_cases hc : g.kind = p.kind ∧ intersectsB p.geom g.geom = true
              · simp [place_shape, hc]
              · simp only [place_shape, if_neg hc, List.length_cons]
                omega
        simp only [List.foldl_cons, List.length_cons]
        omega
  have h3 := hbound pathset []
  simp only [List.length_nil, Nat.zero_add] at h3
  have h4 : (grouping_pass pathset).length ≤ pathset.length := by
    simpa [grouping_pass] using h3
  omega


/-- The exported bounding box of a group geometry, model of
`path.boundingRect()` followed by the corner arithmetic of the source. -/
def boundingRect (g : List Rect) : Rect :=
  match g with
  | [] => { x0 := 0, y0 := 0, x1 := 0, y1 := 0 }
  | r :: rs => rs.foldl (fun acc s =>
      { x0 := min acc.x0 s.x0, y0 := min acc.y0 s.y0
        x1 := max acc.x1 s.x1, y1 := max acc.y1 s.y1 }) r

/-- The method `DocumentPageLayer.get_grouped_annotations`: group the layer's
`annot_paths`, then export `(annotype, minX, minY, maxX, maxY)` per group
together with the layer name. -/
def get_grouped_annotations (name : String) (annot_paths : List AnnotShape) :
    String × List (String × ℚ × ℚ × ℚ × ℚ) :=
  (name, (grouping_func annot_paths).map fun p =>
    (p.kind, (boundingRect p.geom).x0, (boundingRect p.geom).y0,
      (boundingRect p.geom).x1, (boundingRect p.geom).y1))

/-- The merge test of the inner loop, as a single boolean: group `g` and later
path `p` have the same kind and intersecting geometry. -/
def sameKindIntersect (g p : AnnotShape) : Bool :=
  decide (g.kind = p.kind) && intersectsB p.geom g.geom

theorem place_shape_cases (gs : List AnnotShape) (p : AnnotShape) :
    (place_shape gs p).length = gs.length ∨ place_shape gs p = gs ++ [p] := by
  induction gs with
  | nil => right; rfl
  | cons g gs ih =>
      by_cases hc : g.kind = p.kind ∧ intersectsB p.geom g.geom = true
      · left; simp [place_shape, hc]
      · rcases ih with h1 | h1
        · left; simp [place_shape, hc, h1]
        · right; simp [place_shape, hc, h1]

theorem place_shape_length_le (gs : List AnnotShape) (p : AnnotShape) :
    (place_shape gs p).length ≤ gs.length + 1 := by
  rcases place_shape_cases gs p with h | h <;> simp [h]

theorem grouping_pass_aux_length_le (ps : List AnnotShape) :
    ∀ acc : List AnnotShape, (ps.foldl place_shape acc).length ≤ acc.length + ps.length := by
  induction ps with
  | nil => intro acc; simp
  | cons p rest ih =>
      intro acc
      have h1 := ih (place_shape acc p)
      have h2 := place_shape_length_le acc p
      simp only [List.foldl_cons, List.length_cons]
      omega

theorem grouping_pass_aux_eq (ps : List AnnotShape) :
    ∀ acc : List AnnotShape,
      (ps.foldl place_shape acc).length = acc.length + ps.length →
      ps.foldl place_shape acc = acc ++ ps := by
  induction ps with
  | nil => intro acc h; simp
  | cons p rest ih =>
      intro acc h
      simp only [List.foldl_cons, List.length_cons] at h ⊢
      have h1 := grouping_pass_aux_length_le rest (place_shape acc p)
      have h2 := place_shape_length_le acc p
      have h3 : (place_shape acc p).length = acc.length + 1 := by omega
      have h4 : place_shape acc p = acc ++ [p] := by
        rcases place_shape_cases acc p with h5 | h5
        · omega
        · exact h5
      rw [h4] at h ⊢
      have h6 := ih (acc ++ [p]) (by simp at h ⊢; omega)
      rw [h6]
      simp

theorem place_shape_append_not_intersect (gs : List AnnotShape) (p : AnnotShape)
    (h : place_shape gs p = gs ++ [p]) :
    ∀ g ∈ gs, sameKindIntersect g p = false := by
  induction gs with
  | nil => intro g hg; simp at hg
  | cons g0 gs ih =>
      intro g hg
      by_cases hc : g0.kind = p.kind ∧ intersectsB p.geom g0.geom = true
      · exfalso
        have hlen : (place_shape (g0 :: gs) p).length = (g0 :: gs).length := by
          simp [place_shape, hc]
        rw [h] at hlen
        simp at hlen
      · have hstep : place_shape (g0 :: gs) p = g0 :: place_shape gs p := by
          simp [place_shape, hc]
        rw [hstep] at h
        simp only [List.cons_append, List.cons.injEq] at h
        rcases List.mem_cons.mp hg with rfl | hmem
        · cases hb : intersectsB p.geom g.geom
          · simp [sameKindIntersect, hb]
          · have hk : ¬ g.kind = p.kind := fun hk => hc ⟨hk, hb⟩
            simp [sameKindIntersect, hk]
        · exact ih h.2 g hmem

theorem grouping_pass_aux_pairwise (ps : List AnnotShape) :
    ∀ acc : List AnnotShape,
      ps.foldl place_shape acc = acc ++ ps →
      List.Pairwise (fun a b => sameKindIntersect a b = false) acc →
      List.Pairwise (fun a b => sameKindIntersect a b = false) (acc ++ ps) := by
  induction ps with
  | nil => intro acc h hacc; simpa using hacc
  | cons p rest ih =>
      intro acc h hacc
      have hlen : (rest.foldl place_shape (place_shape acc p)).length =
          acc.length + rest.length + 1 := by
        rw [show rest.foldl place_shape (place_shape acc p) =
              (p :: rest).foldl place_shape acc from rfl, h]
        simp
        omega
      have h1 := grouping_pass_aux_length_le rest (place_shape acc p)
      have h2 := place_shape_length_le acc p
      have h3 : (place_shape acc p).length = acc.length + 1 := by omega
      have h4 : place_shape acc p = acc ++ [p] := by
        rcases place_shape_cases acc p with h5 | h5
        · omega
        · exact h5
      have hnotint := place_shape_append_not_intersect acc p h4
      have hacc2 : List.Pairwise (fun a b => sameKindIntersect a b = false) (acc ++ [p]) := by
        rw [List.pairwise_append]
        refine ⟨hacc, List.pairwise_singleton _ _, ?_⟩
        intro a ha b hb
        rw [List.mem_singleton] at hb
        subst hb
        exact hnotint a ha
      have hfold : rest.foldl place_shape (acc ++ [p]) = (acc ++ [p]) ++ rest := by
        rw [← h4]
        rw [show rest.foldl place_shape (place_shape acc p) =
              (p :: rest).foldl place_shape acc from rfl, h, h4]
        simp
      have := ih (acc ++ [p]) hfold hacc2
      simpa using this

theorem grouping_pass_fixed (ps : List AnnotShape)
    (h : (grouping_pass ps).length = ps.length) : grouping_pass ps = ps := by
  have := grouping_pass_aux_eq ps [] (by simpa [grouping_pass] using h)
  simpa [grouping_pass] using this

theorem grouping_pass_eq_self_pairwise (ps : List AnnotShape)
    (h : grouping_pass ps = ps) :
    List.Pairwise (fun a b => sameKindIntersect a b = false) ps := by
  have := grouping_pass_aux_pairwise ps [] (by simpa [grouping_pass] using h) List.Pairwise.nil
  simpa using this

theorem grouping_func_of_fixed_len (ps : List AnnotShape)
    (h : (grouping_pass ps).length = ps.length) :
    grouping_func ps = grouping_pass ps := by
  rw [grouping_func.eq_def]
  simp [h]

theorem grouping_func_of_shrunk_len (ps : List AnnotShape)
    (h : (grouping_pass ps).length ≠ ps.length) :
    grouping_func ps = grouping_func (grouping_pass ps) := by
  rw [grouping_func.eq_def]
  simp [h]

theorem grouping_func_pass_fixed_aux :
    ∀ (n : Nat) (ps : List AnnotShape), ps.length ≤ n →
      grouping_pass (grouping_func ps) = grouping_func ps := by
  intro n
  induction n with
  | zero =>
      intro ps hlen
      have hnil : ps = [] := List.eq_nil_of_length_eq_zero (Nat.le_zero.mp hlen)
      subst hnil
      have h : (grouping_pass ([] : List AnnotShape)).length = ([] : List AnnotShape).length := rfl
      rw [grouping_func_of_fixed_len _ h, grouping_pass_fixed _ h, grouping_pass_fixed _ h]
  | succ n ih =>
      intro ps hlen
      by_cases h : (grouping_pass ps).length = ps.length
      · rw [grouping_func_of_fixed_len ps h, grouping_pass_fixed ps h,
          grouping_pass_fixed ps h]
      · have hle : (grouping_pass ps).length ≤ ps.length := by
          have := grouping_pass_aux_length_le ps []
          simpa [grouping_pass] using this
        have hlt : (grouping_pass ps).length < ps.length := lt_of_le_of_ne hle h
        rw [grouping_func_of_shrunk_len ps h]
        exact ih (grouping_pass ps) (by omega)

theorem grouping_func_pass_fixed (ps : List AnnotShape) :
    grouping_pass (grouping_func ps) = grouping_func ps :=
  grouping_func_pass_fixed_aux ps.length ps (Nat.le_refl _)

/-- C3 (amended): after the clustering iteration converges, no two returned
groups of the same kind have intersecting geometry, and an empty shape
collection yields an empty group list. (The original claim also asserted that
the exported bounding boxes of same-kind groups never overlap; that part is
refuted by the counterexample.) -/
theorem grouping_func_same_kind_disjoint (ps : List AnnotShape) :
    List.Pairwise (fun a b => sameKindIntersect a b = false) (grouping_func ps) ∧
      grouping_func [] = [] := by
  constructor
  · have hfix := grouping_func_pass_fixed ps
    exact grouping_pass_eq_self_pairwise _ hfix
  · have h : (grouping_pass ([] : List AnnotShape)).length = ([] : List AnnotShape).length := rfl
    rw [grouping_func_of_fixed_len _ h]
    rfl

/-- C3 (counterexample): two same-kind shapes with disjoint geometry whose
exported bounding boxes nevertheless overlap. The first shape is the union of
the squares `(0,0)-(1,1)` and `(4,4)-(5,5)`; the second is the square
`(0,4)-(1,5)`. Clustering leaves them as two separate groups (their geometries
do not intersect), but the exported bounding boxes `(0,0,5,5)` and `(0,4,1,5)`
overlap. -/
theorem grouped_annotation_boxes_may_overlap :
    get_grouped_annotations "Layer 1"
        [{ kind := "highlight", geom := [{ x0 := 0, y0 := 0, x1 := 1, y1 := 1 },
                                         { x0 := 4, y0 := 4, x1 := 5, y1 := 5 }] },
         { kind := "highlight", geom := [{ x0 := 0, y0 := 4, x1 := 1, y1 := 5 }] }] =
      ("Layer 1", [("highlight", 0, 0, 5, 5), ("highlight", 0, 4, 1, 5)]) ∧
    rectOverlap { x0 := 0, y0 := 0, x1 := 5, y1 := 5 } { x0 := 0, y0 := 4, x1 := 1, y1 := 5 } =
      true := by
  have hpass : grouping_pass
      [{ kind := "highlight", geom := [{ x0 := 0, y0 := 0, x1 := 1, y1 := 1 },
                                       { x0 := 4, y0 := 4, x1 := 5, y1 := 5 }] },
       { kind := "highlight", geom := [{ x0 := 0, y0 := 4, x1 := 1, y1 := 5 }] }] =
      [{ kind := "highlight", geom := [{ x0 := 0, y0 := 0, x1 := 1, y1 := 1 },
                                       { x0 := 4, y0 := 4, x1 := 5, y1 := 5 }] },
       { kind := "highlight", geom := [{ x0 := 0, y0 := 4, x1 := 1, y1 := 5 }] }] := by
    norm_num [grouping_pass, place_shape, intersectsB, rectOverlap]
  have hfunc := grouping_func_of_fixed_len _ (by rw [hpass])
  rw [hpass] at hfunc
  constructor
  · rw [get_grouped_annotations, hfunc]
    norm_num [boundingRect]
  · norm_num [rectOverlap]

/-- C4: annotation clustering is idempotent: running `grouping_func` on its own
output returns the identical group set, and the fixed point is reached in a
single pass (one further pass leaves the set unchanged, so no further
recursion happens). -/
theorem grouping_func_idempotent (ps : List AnnotShape) :
    grouping_func (grouping_func ps) = grouping_func ps ∧
      grouping_pass (grouping_func ps) = grouping_func ps := by
  have hfix := grouping_func_pass_fixed ps
  refine ⟨?_, hfix⟩
  have hlen : (grouping_pass (grouping_func ps)).length = (grouping_func ps).length := by
    rw [hfix]
  rw [grouping_func_of_fixed_len _ hlen, hfix]

/-! Highlight merger (`DocumentPage.load_layers`). A layer is represented by
its stroke list, the shape returned by the external `lines.readLines` and
`lines.readHighlights` readers. -/

/-- The highlight-merge step of `DocumentPage.load_layers`: when a highlight
source was decoded for the page, the primary layer list is combined with the
highlight layer list by `list(map(add, pagelayers, pagelayershlght))`.
Python `map` over two iterables stops at the shorter one, which is
`List.zipWith`; `add` on the per-layer stroke lists is list concatenation.
With no highlight source, the primary list is used as is. -/
def merge_highlights (pagelayers : List (List Stroke))
    (pagelayershlght : Option (List (List Stroke))) : List (List Stroke) :=
  match pagelayershlght with
  | none => pagelayers
  | some hl => List.zipWith (fun a b => a ++ b) pagelayers hl

/-- C5 (amended): when a highlight source exists and the decoded highlight
layer list has a different length than the primary list, no error is raised:
the merge silently truncates, producing a merged list of length
`min primary highlight` whose common-prefix entries are the element-wise
concatenations. -/
theorem merge_highlights_truncates (p hl : List (List Stroke)) :
    (merge_highlights p (some hl)).length = min p.length hl.length ∧
    ∀ (i : Nat) (a b : List Stroke), p[i]? = some a → hl[i]? = some b →
      (merge_highlights p (some hl))[i]? = some (a ++ b) := by
  constructor
  · simp [merge_highlights]
  · intro i a b ha hb
    simp [merge_highlights, List.getElem?_zipWith_eq_some]
    exact ⟨a, ha, b, hb, rfl⟩

/-- C5 (witness): the truncation theorem applied at a concrete 3-versus-2
merge. -/
theorem merge_highlights_truncates_witness :
    (merge_highlights [[], [], []] (some [[], []])).length = 2 ∧
    (merge_highlights [[], [], []] (some [[], []]))[0]? = some ([] ++ []) := by
  have h := merge_highlights_truncates [[], [], []] [[], []]
  exact ⟨by simpa using h.1, h.2 0 [] [] rfl rfl⟩

/-- C5 (counterexample): merging a 3-layer primary list with a 2-layer
highlight list does not raise any error; it produces a merged 2-layer list
(the third primary layer is silently dropped), contrary to the claimed
`FormatMismatch`. -/
theorem merge_highlights_mismatch_produces_list :
    merge_highlights
        [[{ pen := 1, color := 0, unk1 := none, width := 1, unk2 := none, segments := [] }],
         [{ pen := 2, color := 0, unk1 := none, width := 1, unk2 := none, segments := [] }],
         [{ pen := 3, color := 0, unk1 := none, width := 1, unk2 := none, segments := [] }]]
        (some [[], []]) =
      [[{ pen := 1, color := 0, unk1 := none, width := 1, unk2 := none, segments := [] }],
       [{ pen := 2, color := 0, unk1 := none, width := 1, unk2 := none, segments := [] }]] ∧
    (merge_highlights
        [[{ pen := 1, color := 0, unk1 := none, width := 1, unk2 := none, segments := [] }],
         [{ pen := 2, color := 0, unk1 := none, width := 1, unk2 := none, segments := [] }],
         [{ pen := 3, color := 0, unk1 := none, width := 1, unk2 := none, segments := [] }]]
        (some [[], []])).length = 2 := ⟨rfl, rfl⟩

/-- C6: with a highlight source of the same length as the primary layer list,
the merged list keeps that length and entry `i` is exactly the primary strokes
of layer `i` followed by the highlight strokes of layer `i`; with no highlight
source the primary list is returned unchanged. -/
theorem merge_highlights_aligned (p hl : List (List Stroke)) (h : p.length = hl.length) :
    (merge_highlights p (some hl)).length = p.length ∧
    (∀ i : Nat, i < p.length → ∃ a b, p[i]? = some a ∧ hl[i]? = some b ∧
      (merge_highlights p (some hl))[i]? = some (a ++ b)) ∧
    merge_highlights p none = p := by
  refine ⟨by simp [merge_highlights, h], ?_, rfl⟩
  intro i hi
  have hilt : i < hl.length := h ▸ hi
  refine ⟨p[i], hl[i], List.getElem?_eq_getElem hi, List.getElem?_eq_getElem hilt, ?_⟩
  simp [merge_highlights, List.getElem?_zipWith_eq_some]
  exact ⟨p[i], List.getElem?_eq_getElem hi, hl[i], List.getElem?_eq_getElem hilt, rfl⟩

/-- C6 (witness): merging a concrete 3-layer primary list with a concrete
3-layer highlight list keeps 3 layers and concatenates element-wise. -/
theorem merge_highlights_aligned_witness :
    (merge_highlights
        [[{ pen := 1, color := 0, unk1 := none, width := 1, unk2 := none, segments := [] }],
         [], [{ pen := 3, color := 0, unk1 := none, width := 1, unk2 := none, segments := [] }]]
        (some [[{ pen := 5, color := 1, unk1 := none, width := 2, unk2 := none, segments := [] }],
               [{ pen := 5, color := 3, unk1 := none, width := 2, unk2 := none, segments := [] }],
               []])).length = 3 ∧
    merge_highlights
        [[{ pen := 1, color := 0, unk1 := none, width := 1, unk2 := none, segments := [] }],
         [], [{ pen := 3, color := 0, unk1 := none, width := 1, unk2 := none, segments := [] }]]
        none =
      [[{ pen := 1, color := 0, unk1 := none, width := 1, unk2 := none, segments := [] }],
       [], [{ pen := 3, color := 0, unk1 := none, width := 1, unk2 := none, segments := [] }]] := by
  have h := merge_highlights_aligned
    [[{ pen := 1, color := 0, unk1 := none, width := 1, unk2 := none, segments := [] }],
     [], [{ pen := 3, color := 0, unk1 := none, width := 1, unk2 := none, segments := [] }]]
    [[{ pen := 5, color := 1, unk1 := none, width := 2, unk2 := none, segments := [] }],
     [{ pen := 5, color := 3, unk1 := none, width := 2, unk2 := none, segments := [] }],
     []] rfl
  exact ⟨h.1, h.2.2⟩

/-! Pen dispatch (`DocumentPageLayer.paint_strokes`) and layer rendering
(`DocumentPageLayer.render_to_painter`). -/

/-- The Python exceptions the modelled code paths can raise; `formatMismatch`
is the error kind named by the spec (the source never raises it, which is what
several claims are about). -/
inductive PyError where
  | unboundLocalError
  | indexError
  | assertionError
  | fileNotFoundError
  | formatMismatch
  deriving DecidableEq, Repr

/-- Renderer capability classes: one per pen kind as the spec's closed
enumeration, with `generic` the fallback (`pens.GenericPen`) and `highlighter`
the highlighter-category renderer (`pens.highlighter.HighlighterPen`). -/
inductive PenClass where
  | generic
  | highlighter
  | paintbrush
  | pencil
  | ballpoint
  | marker
  | fineliner
  | eraser
  | eraseArea
  | calligraphy
  deriving DecidableEq, Repr

/-- A resolved pen color: a normalized `(r, g, b)` triple, or `none` for the
`(None, None, None)` sentinel entries of the highlight table. -/
abbrev ColorT := Option (ℚ × ℚ × ℚ)

/-- The eight-entry standard color table `self.colors` of
`DocumentPageLayer.__init__`. -/
def colors : List ColorT :=
  [some (56/255, 57/255, 56/255),
   some (1/2, 1/2, 1/2),
   some (1, 1, 1),
   some (1, 1, 0),
   some (0, 1, 0),
   some (1, 0, 1),
   some (52/255, 120/255, 247/255),
   some (228/255, 95/255, 89/255)]

/-- The six-entry highlight color table `self.highlight_colors` of
`DocumentPageLayer.__init__`; indices 0 and 2 hold the no-color sentinel. -/
def highlight_colors : List ColorT :=
  [none,
   some (248/255, 241/255, 36/255),
   none,
   some (248/255, 241/255, 36/255),
   some (183/255, 248/255, 73/255),
   some (248/255, 79/255, 145/255)]

/-- Modelled from the spec: the pen-code-to-renderer table `pens.PEN_MAPPING`
of the `rmrl.pens` package, which is outside the analysed source file. The
spec describes it as a closed enumeration of pen kinds, each mapped to one
renderer capability; we model a representative table covering both schema
generations of pen codes, with the highlighter category at codes 5 and 18.
Codes outside the table are unknown pen codes. -/
def PEN_MAPPING : Nat → Option PenClass := fun pen =>
  if pen = 0 then some .paintbrush
  else if pen = 1 then some .pencil
  else if pen = 2 then some .ballpoint
  else if pen = 3 then some .marker
  else if pen = 4 then some .fineliner
  else if pen = 5 then some .highlighter
  else if pen = 6 then some .eraser
  else if pen = 8 then some .eraseArea
  else if pen = 12 then some .paintbrush
  else if pen = 13 then some .pencil
  else if pen = 15 then some .ballpoint
  else if pen = 16 then some .marker
  else if pen = 17 then some .fineliner
  else if pen = 18 then some .highlighter
  else if pen = 21 then some .calligraphy
  else none

/-- Severity of a diagnostic record. -/
inductive LogLevel where
  | error
  | warning
  deriving DecidableEq, Repr

/-- One diagnostic record; the only log call on the modelled paths is
`log.error("Unknown pen code %d" % pen)`. -/
structure LogMsg where
  level : LogLevel
  penCode : Nat
  deriving DecidableEq, Repr

/-- One stroke as actually handed to the drawing surface: the resolved
renderer class, the resolved color and the stroke itself. -/
structure PaintedStroke where
  penclass : PenClass
  pencolor : ColorT
  stroke : Stroke
  deriving DecidableEq, Repr

/-- One iteration of the `for stroke in self.strokes` loop of
`DocumentPageLayer.paint_strokes`. The `pencolor` argument is the value the
Python local variable `pencolor` holds when the iteration starts (`none` when
it is still unassigned): the unknown-pen branch logs, substitutes
`pens.GenericPen`, and leaves `pencolor` untouched — so if no earlier
iteration assigned it, reading it raises `UnboundLocalError`. The two known
branches index the applicable color table, raising `IndexError` when the color
code is out of range. -/
def paint_stroke_step (penMapping : Nat → Option PenClass) (pencolor : Option ColorT)
    (stroke : Stroke) : List LogMsg × Except PyError (PaintedStroke × ColorT) :=
  match penMapping stroke.pen with
  | none =>
      match pencolor with
      | none => ([{ level := .error, penCode := stroke.pen }], .error .unboundLocalError)
      | some c => ([{ level := .error, penCode := stroke.pen }],
          .ok ({ penclass := .generic, pencolor := c, stroke := stroke }, c))
  | some pc =>
      if pc = .highlighter then
        match highlight_colors[stroke.color]? with
        | none => ([], .error .indexError)
        | some c => ([], .ok ({ penclass := pc, pencolor := c, stroke := stroke }, c))
      else
        match colors[stroke.color]? with
        | none => ([], .error .indexError)
        | some c => ([], .ok ({ penclass := pc, pencolor := c, stroke := stroke }, c))

/-- The stroke loop of `DocumentPageLayer.paint_strokes`, threading the Python
local `pencolor` through the iterations; returns the emitted diagnostics and
either the painted strokes or the first raised exception. -/
def paint_strokes_aux (penMapping : Nat → Option PenClass) :
    Option ColorT → List Stroke → List LogMsg × Except PyError (List PaintedStroke)
  | _, [] => ([], .ok [])
  | pencolor, stroke :: rest =>
      let step := paint_stroke_step penMapping pencolor stroke
      match step.2 with
      | .error e => (step.1, .error e)
      | .ok (d, c) =>
          let r := paint_strokes_aux penMapping (some c) rest
          (step.1 ++ r.1, r.2.map fun ds => d :: ds)

/-- `DocumentPageLayer.paint_strokes`: the loop starts with the local
`pencolor` unassigned. -/
def paint_strokes (penMapping : Nat → Option PenClass) (strokes : List Stroke) :
    List LogMsg × Except PyError (List PaintedStroke) :=
  paint_strokes_aux penMapping none strokes

/-- `DocumentPageLayer.render_to_painter`: with the vector flag the strokes
are painted; without it, execution reaches `assert False`. -/
def render_to_painter (penMapping : Nat → Option PenClass) (strokes : List Stroke)
    (vector : Bool) : List LogMsg × Except PyError (List PaintedStroke) :=
  if vector then paint_strokes penMapping strokes
  else ([], .error .assertionError)

/-! Page construction (`DocumentPage.__init__` / `DocumentPage.load_layers`),
as far as the missing-stroke-file behaviour is concerned. -/

/-- A stroke (`.rm`) file as far as the modelled code inspects it: the schema
version read from its header by the external `lines.getVersion`, and its
decoded block stream. -/
structure RmFile where
  version : Nat
  blocks : List Block

/-- Modelled from the spec: the external source accessor handed to
`DocumentPage.__init__` (outside the analysed source file); a partial map from
artifact paths to stroke files, where `exists` tests presence and `open` on an
absent path fails, as the spec's blocking, fallible local I/O. -/
structure SourceModel where
  files : String → Option RmFile

/-- The accessor's `source.exists(path)`. -/
def source_exists (src : SourceModel) (path : String) : Bool :=
  (src.files path).isSome

/-- The accessor's `source.open(path)`: raises on a missing file. -/
def source_open (src : SourceModel) (path : String) : Except PyError RmFile :=
  match src.files path with
  | none => .error .fileNotFoundError
  | some f => .ok f

/-- The on-disk path of a page's stroke file. -/
def rmpath_of (pid : String) : String := "\x7bID\x7d/" ++ pid ++ ".rm"

/-- The fields of `DocumentPage` the missing-stroke-file claim is about. -/
structure PageInit where
  rmpath : String
  version : Nat
  deriving Repr

/-- The version-detection prefix of `DocumentPage.__init__`: fall back to the
page-number path when the UUID-named path is absent, then unconditionally open
the stroke file (`with self.source.open(self.rmpath, 'rb') as f`) to read its
version — so an absent stroke file raises before `load_layers` ever runs. -/
def documentPage_init (src : SourceModel) (pid : String) (pagenum : Nat) :
    Except PyError PageInit :=
  let rmpath0 := rmpath_of pid
  let rmpath := if source_exists src rmpath0 then rmpath0 else rmpath_of (toString pagenum)
  match source_open src rmpath with
  | .error e => .error e
  | .ok f => .ok { rmpath := rmpath, version := f.version }

/-- The guard of `DocumentPage.load_layers` on the version-6 path: a missing
stroke file yields zero layers (the source comments `# no layers, obv`);
otherwise the block stream is decoded with `get_layers`. -/
def load_layers_v6 (src : SourceModel) (page : PageInit) : List Layer :=
  if source_exists src page.rmpath = false then []
  else
    match src.files page.rmpath with
    | none => []
    | some f => get_layers f.blocks

/-- C7 (code evaluated at the failing input): when the first stroke of a layer
carries a pen code outside `PEN_MAPPING` (here 255), `paint_strokes` logs one
error-level diagnostic and substitutes `GenericPen`, but constructing the pen
reads the never-assigned local `pencolor` and raises `UnboundLocalError` — the
stroke is not rendered. The second conjunct shows the intended fallback
working by accident when an earlier stroke has bound `pencolor`: the unknown
stroke then renders via the generic class with the leaked previous color, with
exactly one diagnostic logged. -/
theorem unknown_pen_first_stroke_raises :
    paint_strokes PEN_MAPPING
        [{ pen := 255, color := 0, unk1 := none, width := 1, unk2 := none, segments := [] }] =
      ([{ level := .error, penCode := 255 }], .error .unboundLocalError) ∧
    paint_strokes PEN_MAPPING
        [{ pen := 2, color := 0, unk1 := none, width := 1, unk2 := none, segments := [] },
         { pen := 255, color := 0, unk1 := none, width := 1, unk2 := none, segments := [] }] =
      ([{ level := .error, penCode := 255 }],
       .ok [{ penclass := .ballpoint, pencolor := some (56/255, 57/255, 56/255),
              stroke := { pen := 2, color := 0, unk1 := none, width := 1, unk2 := none,
                          segments := [] } },
            { penclass := .generic, pencolor := some (56/255, 57/255, 56/255),
              stroke := { pen := 255, color := 0, unk1 := none, width := 1, unk2 := none,
                          segments := [] } }]) :=
  ⟨rfl, rfl⟩

/-- C8 (amended): at dispatch time a highlighter-category renderer's color
code indexes the 6-entry highlight table and every other known renderer's
color code indexes the 8-entry standard table; a color code out of range for
the applicable table raises `IndexError` (an uncaught crash), not a
`FormatMismatch` error. In range, the looked-up table entry is the resolved
color of the painted stroke. -/
theorem color_dispatch_tables (M : Nat → Option PenClass) (prev : Option ColorT) (s : Stroke) :
    highlight_colors.length = 6 ∧ colors.length = 8 ∧
    (M s.pen = some .highlighter → 6 ≤ s.color →
      paint_stroke_step M prev s = ([], .error .indexError)) ∧
    (∀ pc : PenClass, M s.pen = some pc → pc ≠ .highlighter → 8 ≤ s.color →
      paint_stroke_step M prev s = ([], .error .indexError)) ∧
    (M s.pen = some .highlighter → s.color < 6 →
      ∃ c, highlight_colors[s.color]? = some c ∧
        paint_stroke_step M prev s =
          ([], .ok ({ penclass := .highlighter, pencolor := c, stroke := s }, c))) ∧
    (∀ pc : PenClass, M s.pen = some pc → pc ≠ .highlighter → s.color < 8 →
      ∃ c, colors[s.color]? = some c ∧
        paint_stroke_step M prev s =
          ([], .ok ({ penclass := pc, pencolor := c, stroke := s }, c))) := by
  refine ⟨rfl, rfl, ?_, ?_, ?_, ?_⟩
  · intro hM hc
    have hnone : highlight_colors[s.color]? = none := by
      apply List.getElem?_eq_none
      simpa [highlight_colors] using hc
    simp [paint_stroke_step, hM, hnone]
  · intro pc hM hne hc
    have hnone : colors[s.color]? = none := by
      apply List.getElem?_eq_none
      simpa [colors] using hc
    simp [paint_stroke_step, hM, hne, hnone]
  · intro hM hc
    have hlt : s.color < highlight_colors.length := by
      simpa [highlight_colors] using hc
    refine ⟨highlight_colors[s.color], List.getElem?_eq_getElem hlt, ?_⟩
    simp [paint_stroke_step, hM, List.getElem?_eq_getElem hlt]
  · intro pc hM hne hc
    have hlt : s.color < colors.length := by
      simpa [colors] using hc
    refine ⟨colors[s.color], List.getElem?_eq_getElem hlt, ?_⟩
    simp [paint_stroke_step, hM, hne, List.getElem?_eq_getElem hlt]

/-- C8 (witness): the amended theorem applied at a concrete highlighter stroke
with the out-of-range color code 6. -/
theorem color_dispatch_tables_witness :
    paint_stroke_step PEN_MAPPING none
        { pen := 5, color := 6, unk1 := none, width := 1, unk2 := none, segments := [] } =
      ([], .error .indexError) ∧
    highlight_colors.length = 6 ∧ colors.length = 8 := by
  have h := color_dispatch_tables PEN_MAPPING none
    { pen := 5, color := 6, unk1 := none, width := 1, unk2 := none, segments := [] }
  exact ⟨h.2.2.1 rfl (by decide), h.1, h.2.1⟩

/-- C8 (counterexample): an out-of-range color code for a highlighter-category
pen raises `IndexError`, which is not the `FormatMismatch` error the claim
promises. -/
theorem out_of_range_color_not_format_mismatch :
    paint_stroke_step PEN_MAPPING none
        { pen := 18, color := 7, unk1 := none, width := 1, unk2 := none, segments := [] } =
      ([], .error .indexError) ∧
    PyError.indexError ≠ PyError.formatMismatch :=
  ⟨rfl, by decide⟩

/-- C9 (code evaluated at the failing input): with a source containing no
stroke file at all, `DocumentPage.__init__` raises `FileNotFoundError` while
reading the version header, so the page is never constructed — even though the
`load_layers` guard (second conjunct) would have produced the zero-layer page
the claim describes. -/
theorem missing_rm_file_fails_construction :
    documentPage_init { files := fun _ => none } "a1b2c3" 0 = .error .fileNotFoundError ∧
    load_layers_v6 { files := fun _ => none } { rmpath := rmpath_of "a1b2c3", version := 6 } =
      [] :=
  ⟨rfl, rfl⟩

theorem paint_stroke_step_no_assert (M : Nat → Option PenClass) (prev : Option ColorT)
    (s : Stroke) : (paint_stroke_step M prev s).2 ≠ .error .assertionError := by
  cases hM : M s.pen with
  | none => cases prev <;> simp [paint_stroke_step, hM]
  | some pc =>
      by_cases h : pc = PenClass.highlighter
      · cases hc : highlight_colors[s.color]? <;> simp [paint_stroke_step, hM, h, hc]
      · cases hc : colors[s.color]? <;> simp [paint_stroke_step, hM, h, hc]

theorem paint_strokes_aux_no_assert (M : Nat → Option PenClass) (strokes : List Stroke) :
    ∀ prev : Option ColorT, (paint_strokes_aux M prev strokes).2 ≠ .error .assertionError := by
  induction strokes with
  | nil => intro prev; simp [paint_strokes_aux]
  | cons s rest ih =>
      intro prev
      cases hstep : (paint_stroke_step M prev s).2 with
      | error e =>
          have h := paint_stroke_step_no_assert M prev s
          rw [hstep] at h
          simpa [paint_strokes_aux, hstep] using h
      | ok dc =>
          obtain ⟨d, c⟩ := dc
          cases hr : (paint_strokes_aux M (some c) rest).2 with
          | error e =>
              have h := ih (some c)
              rw [hr] at h
              simpa [paint_strokes_aux, hstep, hr, Except.map] using h
          | ok ds => simp [paint_strokes_aux, hstep, hr, Except.map]

/-- C10: a layer renders only in vector mode: with the vector flag the result
is exactly the stroke-painting outcome, without it no stroke is painted and
the `assert False` fails; the assertion failure occurs precisely when the
vector flag is false. -/
theorem render_to_painter_vector_only (M : Nat → Option PenClass) (strokes : List Stroke) :
    render_to_painter M strokes false = ([], .error .assertionError) ∧
    render_to_painter M strokes true = paint_strokes M strokes ∧
    ∀ vector : Bool,
      ((render_to_painter M strokes vector).2 = .error .assertionError ↔ vector = false) := by
  refine ⟨rfl, rfl, ?_⟩
  intro v
  cases v
  · simp [render_to_painter]
  · simp [render_to_painter]
    exact paint_strokes_aux_no_assert M strokes none

/-- C10 (witness): the vector-mode theorem applied at a concrete layer. -/
theorem render_to_painter_vector_only_witness :
    render_to_painter PEN_MAPPING [] false = ([], .error .assertionError) ∧
    (render_to_painter PEN_MAPPING [] false).2 = .error .assertionError ∧
    ¬ (render_to_painter PEN_MAPPING [] true).2 = .error .assertionError := by
  have h := render_to_painter_vector_only PEN_MAPPING []
  refine ⟨h.1, (h.2.2 false).mpr rfl, fun hc => ?_⟩
  have := (h.2.2 true).mp hc
  simp at this

end Rmrl
